import Mathlib

/-!
Verification of the retrieval-augmented answer assembly pipeline
(chunker, retrieval normalizer, citation formatter, prompt constructor,
ingestion and answer orchestrators) of the endee-rag-assistant backend.

Modelling conventions:
* A Python `str` is modelled as `List Char`; `str.strip()` removes leading
  and trailing whitespace characters, `text[a:b]` is `pySlice`.  Python
  f-strings are string concatenation; the decimal rendering of an integer is
  `natStr` / `intStr`.
* The chunking loop (`while start < len(text): ...`) is modelled by the
  fuel-indexed `chunkLoop`; one unit of fuel corresponds to one iteration of
  the loop body, and a result of `none` models non-termination (no finite
  number of iterations completes the loop).
* Dictionary fields that may be absent (or hold a null value, which the code
  treats identically via truthiness and bare `.get`) are modelled as `Option`.
* Similarity scores and latencies are passed through untouched by the code,
  so they are modelled as `Rat`; the `round(x, 2)` float operation used only
  on the non-empty generation path is an abstract parameter.
* External collaborators (document loaders, embedding provider, vector store,
  chat completion) are parameters of the orchestrator functions; the answer
  orchestrator additionally returns the number of times the generation
  provider was invoked.
-/

namespace EndeeRag

/-- Python `str` as a list of characters. -/
abbrev PyStr := List Char

/-- Python `str.strip()`: drop leading and trailing whitespace. -/
def pyStrip (s : PyStr) : PyStr :=
  ((s.dropWhile Char.isWhitespace).reverse.dropWhile Char.isWhitespace).reverse

/-- Python slice `s[start:stop]` for `0 ≤ start ≤ stop` (indices clamped to
the length of `s`, as in Python). -/
def pySlice (s : PyStr) (start stop : Nat) : PyStr :=
  (s.drop start).take (stop - start)

/-- One chunk produced by `chunk_text`: the trimmed window text, the running
`chunk_index`, and the caller-supplied metadata attached verbatim
(`{"text": ..., "chunk_index": ..., **metadata}`). -/
structure TextChunk (α : Type) where
  text : PyStr
  chunk_index : Nat
  meta : α
deriving Repr, DecidableEq

/-- The `while start < len(text)` loop of `chunk_text`
(src/backend/utils/chunker.py).  Each fuel unit is one execution of the loop
body: extract `text[start:start+chunk_size]`, strip it, emit it (with the next
`chunk_index`) when non-empty, set `start = end - chunk_overlap`, and break
when the new `start` has reached the end of the text.  `none` means the given
number of iterations did not finish the loop. -/
def chunkLoop (text : PyStr) (chunk_size chunk_overlap : Nat) (md : α) :
    Nat → Nat → Nat → Option (List (TextChunk α))
  | 0, start, _ =>
      if start < text.length then none else some []
  | fuel + 1, start, chunk_index =>
      if start < text.length then
        let e := start + chunk_size
        let chunk := pyStrip (pySlice text start e)
        let start' := e - chunk_overlap
        if chunk.isEmpty then
          if text.length ≤ start' then some []
          else chunkLoop text chunk_size chunk_overlap md fuel start' chunk_index
        else
          if text.length ≤ start' then some [⟨chunk, chunk_index, md⟩]
          else
            (chunkLoop text chunk_size chunk_overlap md fuel start' (chunk_index + 1)).map
              (⟨chunk, chunk_index, md⟩ :: ·)
      else some []

/-- `chunk_text(text, chunk_size, chunk_overlap, metadata)`
(src/backend/utils/chunker.py): empty or whitespace-only input returns `[]`;
otherwise run the windowing loop.  `text.length` units of fuel are provided;
whenever the Python loop terminates it does so within that many iterations,
and when it does not (step `≤ 0`), every finite fuel yields `none`. -/
def chunk_text (text : PyStr) (chunk_size chunk_overlap : Nat) (md : α) :
    Option (List (TextChunk α)) :=
  if text.isEmpty || (pyStrip text).isEmpty then some []
  else chunkLoop text chunk_size chunk_overlap md text.length 0 0

/-- Ceiling division on naturals, `⌈n / s⌉ = (n + s - 1) / s`. -/
def ceilDiv (n s : Nat) : Nat := (n + s - 1) / s

/-- Decimal digit characters. -/
def digitChar : Nat → Char
  | 0 => '0'
  | 1 => '1'
  | 2 => '2'
  | 3 => '3'
  | 4 => '4'
  | 5 => '5'
  | 6 => '6'
  | 7 => '7'
  | 8 => '8'
  | 9 => '9'
  | _ => '*'

/-- Decimal digit expansion of a natural number (most significant digit
first), with a fuel argument making the recursion structural. -/
def natDecAux : Nat → Nat → List Char
  | 0, _ => []
  | fuel + 1, n =>
      if n < 10 then [digitChar n]
      else natDecAux fuel (n / 10) ++ [digitChar (n % 10)]

/-- Decimal digit expansion of a natural number, as printed by Python. -/
def natDec (n : Nat) : List Char := natDecAux (n + 1) n

/-- Decimal rendering of a natural number. -/
def natStr (n : Nat) : String := ⟨natDec n⟩

/-- Decimal rendering of an integer, as printed by Python. -/
def intStr (i : Int) : String :=
  if i < 0 then "-" ++ natStr i.natAbs else natStr i.natAbs

/-- Location metadata carried by a document section: the source file name and
the page number (PDF loader) or paragraph index (DOCX loader), when present.
`none` models an absent dictionary key. -/
structure DocMeta where
  document_name : Option String
  page_number : Option Int
  paragraph_index : Option Int
deriving Repr, DecidableEq

/-- One document section produced by a loader: its text plus the metadata
keys other than `"text"` (src/backend/utils/chunker.py `chunk_documents`). -/
structure Document where
  text : PyStr
  meta : DocMeta
deriving Repr, DecidableEq

/-- `chunk_documents(documents, chunk_size, chunk_overlap)`
(src/backend/utils/chunker.py): chunk every document in order with its own
metadata attached, concatenating the results.  `none` propagates the
non-termination of any single `chunk_text` call. -/
def chunk_documents (docs : List Document) (cs co : Nat) :
    Option (List (TextChunk DocMeta)) :=
  match docs with
  | [] => some []
  | d :: rest =>
      match chunk_text d.text cs co d.meta, chunk_documents rest cs co with
      | some a, some b => some (a ++ b)
      | _, _ => none

/-- Metadata stored with a vector record (src/backend/ingest.py, step 4). -/
structure VecMeta where
  document_name : String
  text : PyStr
  chunk_index : Nat
  page_number : Option Int
  paragraph_index : Option Int
deriving Repr, DecidableEq

/-- A record sent to the vector store: id, embedding vector, metadata. -/
structure VectorRecord where
  id : String
  vector : List Rat
  metadata : VecMeta
deriving Repr, DecidableEq

/-- `chunk_id = f"{chunk.get('document_name', 'unknown')}_{idx}"`
(src/backend/ingest.py line 156); `idx` is the enumeration index. -/
def chunk_id (c : TextChunk DocMeta) (idx : Nat) : String :=
  (c.meta.document_name.getD ("unknown")) ++ "_" ++ natStr idx

/-- One vector record of step 4 of `ingest_documents` (src/backend/ingest.py):
id from `chunk_id`, the provided embedding, and the metadata projection. -/
def mkVectorRecord (c : TextChunk DocMeta) (emb : List Rat) (idx : Nat) :
    VectorRecord where
  id := chunk_id c idx
  vector := emb
  metadata :=
    { document_name := c.meta.document_name.getD ("")
      text := c.text
      chunk_index := c.chunk_index
      page_number := c.meta.page_number
      paragraph_index := c.meta.paragraph_index }

/-- The `for idx, (chunk, embedding) in enumerate(zip(chunks, embeddings))`
loop of step 4 of `ingest_documents`, with the running enumeration index. -/
def prepare_vectors_aux : Nat → List (TextChunk DocMeta × List Rat) → List VectorRecord
  | _, [] => []
  | idx, (c, emb) :: rest => mkVectorRecord c emb idx :: prepare_vectors_aux (idx + 1) rest

/-- Step 4 of `ingest_documents` (src/backend/ingest.py lines 151-176):
zip chunks with their embeddings and build one vector record per pair,
enumerating from 0 across the whole batch. -/
def prepare_vectors (chunks : List (TextChunk DocMeta)) (embeddings : List (List Rat)) :
    List VectorRecord :=
  prepare_vectors_aux 0 (chunks.zip embeddings)

/-- The global-failure message when no file loaded successfully. -/
def noDocsError : String := "No documents were successfully loaded"

/-- The global-failure message when chunking produced zero chunks. -/
def noChunksError : String := "No chunks were created"

/-- The statistics dictionary returned by `ingest_documents`. -/
structure IngestResult where
  success : Bool
  error : Option String
  chunks_created : Nat
  vectors_stored : Nat
deriving Repr, DecidableEq

/-- Step 1 of `ingest_documents` (src/backend/ingest.py lines 105-115): load
every file through the external loader; a file whose load raises is skipped
(`except ... continue`) and contributes no sections. -/
def load_all (loader : φ → Except String (List Document)) : List φ → List Document
  | [] => []
  | f :: rest =>
      (match loader f with
       | Except.ok docs => docs
       | Except.error _ => []) ++ load_all loader rest

/-- `IngestionPipeline.ingest_documents` (src/backend/ingest.py), up to the
result dictionary: load all files (skipping per-file failures), fail globally
when no sections loaded, chunk, fail globally when no chunks, otherwise
succeed with the chunk count and the external upsert count.  The embedding
and upsert collaborators are abstracted by `upsert_count`; `none` propagates
chunker non-termination. -/
def ingest_documents (loader : φ → Except String (List Document)) (files : List φ)
    (cs co : Nat) (upsert_count : Nat) : Option IngestResult :=
  let all_documents := load_all loader files
  if all_documents.isEmpty then
    some { success := false, error := some noDocsError
           chunks_created := 0, vectors_stored := 0 }
  else
    (chunk_documents all_documents cs co).map fun chunks =>
      if chunks.isEmpty then
        { success := false, error := some noChunksError
          chunks_created := 0, vectors_stored := 0 }
      else
        { success := true, error := none
          chunks_created := chunks.length, vectors_stored := upsert_count }

/-- The metadata dictionary of one raw search hit; every field may be absent
(`none`). -/
structure RawMeta where
  text : Option String
  document_name : Option String
  page_number : Option Int
  paragraph_index : Option Int
  chunk_index : Option Int
deriving Repr, DecidableEq

/-- One raw hit of the vector-store search response
(`{"id": ..., "score": ..., "metadata": {...}}`). -/
structure RawHit where
  id : Option String
  score : Option Rat
  metadata : Option RawMeta
deriving Repr, DecidableEq

/-- A normalized retrieved chunk (the dictionary built in
`Retriever.retrieve`, src/backend/retriever.py lines 86-98).  The keys
`id`, `similarity`, `text`, `document_name`, `chunk_index` are always set by
normalization; `page_number` and `paragraph_index` may be null. -/
structure RetrievedChunk where
  id : String
  similarity : Rat
  text : String
  document_name : Option String
  page_number : Option Int
  paragraph_index : Option Int
  chunk_index : Option Int
deriving Repr, DecidableEq

/-- The metadata dictionary with every key absent. -/
def emptyRawMeta : RawMeta := ⟨none, none, none, none, none⟩

/-- Normalization of one raw hit (the loop body of `Retriever.retrieve`):
`item.get("metadata", {})`, then every projected field defaults to the empty
string / 0 / null when absent, and `score` becomes `similarity` untouched. -/
def normalizeHit (item : RawHit) : RetrievedChunk :=
  let metadata := item.metadata.getD emptyRawMeta
  { id := item.id.getD ("")
    similarity := item.score.getD 0
    text := metadata.text.getD ("")
    document_name := some (metadata.document_name.getD (""))
    page_number := metadata.page_number
    paragraph_index := metadata.paragraph_index
    chunk_index := some (metadata.chunk_index.getD 0) }

/-- The normalization loop of `Retriever.retrieve`: one normalized chunk per
raw hit, in the order of the search response. -/
def normalize (hits : List RawHit) : List RetrievedChunk :=
  hits.map normalizeHit

/-- The search response of the vector-store client, as consumed by
`Retriever.retrieve`. -/
structure SearchResponse where
  results : List RawHit
  retrieval_latency_ms : Rat
deriving Repr, DecidableEq

/-- The dictionary returned by `Retriever.retrieve`. -/
structure RetrievalResult where
  chunks : List RetrievedChunk
  retrieval_latency_ms : Rat
  query : String
deriving Repr, DecidableEq

/-- `Retriever.retrieve(query, top_k)` after the external embedding and
search calls: normalize the raw hits and pass the latency through. -/
def retrieve (searchResult : SearchResponse) (query : String) : RetrievalResult :=
  { chunks := normalize searchResult.results
    retrieval_latency_ms := searchResult.retrieval_latency_ms
    query := query }

/-- Python truthiness of an optional integer field: absent (or null) and 0
are falsy. -/
def truthyInt : Option Int → Bool
  | none => false
  | some n => n != 0

/-- `RAGPipeline.format_citation(chunk)` (src/backend/rag_pipeline.py lines
33-53): page number if present and truthy, else paragraph index if present
and truthy, else `chunk {chunk.get("chunk_index", 0)}`; document name
defaults to `"Unknown"` when absent. -/
def format_citation (chunk : RetrievedChunk) : String :=
  let doc_name := chunk.document_name.getD ("Unknown")
  let location :=
    if truthyInt chunk.page_number then
      "page " ++ intStr (chunk.page_number.getD 0)
    else if truthyInt chunk.paragraph_index then
      "para " ++ intStr (chunk.paragraph_index.getD 0)
    else
      "chunk " ++ intStr (chunk.chunk_index.getD 0)
  "[" ++ doc_name ++ " – " ++ location ++ "]"

/-- One context block of `RAGPipeline.construct_prompt`:
`f"[{idx}] {citation}\n{chunk['text']}\n"`. -/
def mkContextBlock (idx : Nat) (c : RetrievedChunk) : String :=
  "[" ++ natStr idx ++ "] " ++ format_citation c ++ "\n" ++ c.text ++ "\n"

/-- The `for idx, chunk in enumerate(chunks, 1)` loop of `construct_prompt`:
one context block per chunk, 1-indexed in input order. -/
def contextBlocks : Nat → List RetrievedChunk → List String
  | _, [] => []
  | idx, c :: rest => mkContextBlock idx c :: contextBlocks (idx + 1) rest

/-- The fixed prompt text before the context section. -/
def promptHead : String :=
  "You are a helpful assistant that answers questions based on the provided context.\n\nCONTEXT:\n"

/-- The fixed instructional prompt text between the context and the query. -/
def promptMid : String :=
  "\n\nINSTRUCTIONS:\n1. Answer the user\x27s question using ONLY the information from the context above\n2. After EACH sentence in your answer, add an inline citation in the format [source_name – page/section]\n3. Use the exact citation format shown in the context (e.g., [document.pdf – page 5])\n4. If the context doesn\x27t contain enough information to answer, say so clearly\n5. Be concise and accurate\n\nUSER QUESTION:\n"

/-- The fixed prompt text after the query. -/
def promptTail : String := "\n\nANSWER:"

/-- `RAGPipeline.construct_prompt(query, chunks)` (src/backend/rag_pipeline.py
lines 55-92): the context blocks joined with blank lines, wrapped in the
fixed instructional template. -/
def construct_prompt (query : String) (chunks : List RetrievedChunk) : String :=
  let context := String.intercalate ("\n") (contextBlocks 1 chunks)
  promptHead ++ context ++ promptMid ++ query ++ promptTail

/-- The fixed fallback answer of the empty-retrieval short circuit. -/
def fallbackAnswer : String :=
  "I couldn\x27t find any relevant information to answer your question."

/-- The dictionary returned by `RAGPipeline.generate_answer`. -/
structure AnswerResult where
  answer : String
  chunks : List RetrievedChunk
  retrieval_latency_ms : Rat
  generation_latency_ms : Rat
  total_latency_ms : Rat
deriving Repr, DecidableEq

/-- `RAGPipeline.generate_answer(query, top_k)` (src/backend/rag_pipeline.py
lines 94-163) after the retrieval step: when retrieval yielded no chunks,
return the fallback result at once; otherwise build the prompt, call the
generation provider, and assemble the rounded latencies.  `genProvider`
models the chat-completion call, `round2` the float `round(x, 2)`,
`gen_latency` and `total_elapsed` the wall-clock measurements; the second
component counts how often the generation provider was invoked. -/
def generate_answer (retrieval : RetrievalResult) (query : String)
    (genProvider : String → String) (round2 : Rat → Rat)
    (gen_latency total_elapsed : Rat) : AnswerResult × Nat :=
  let chunks := retrieval.chunks
  let retrieval_latency := retrieval.retrieval_latency_ms
  if chunks.isEmpty then
    ({ answer := fallbackAnswer
       chunks := []
       retrieval_latency_ms := retrieval_latency
       generation_latency_ms := 0
       total_latency_ms := total_elapsed }, 0)
  else
    let prompt := construct_prompt query chunks
    let answer := genProvider prompt
    ({ answer := answer
       chunks := chunks
       retrieval_latency_ms := round2 retrieval_latency
       generation_latency_ms := round2 gen_latency
       total_latency_ms := round2 total_elapsed }, 1)

/-! Concrete sample data used by counterexamples and witnesses. -/

/-- The 32-character end-to-end example text of the specification. -/
def exampleText : PyStr := "AAAAAAAAAA BBBBBBBBBB CCCCCCCCCC".toList

/-- A sample text for the termination witness. -/
def termText : PyStr := "The quick brown fox jumps over the lazy dog".toList

/-- A sample chunk of document `A`. -/
def chunkA : TextChunk DocMeta := ⟨"alpha".toList, 0, ⟨some "A", some 1, none⟩⟩

/-- A sample chunk of document `B` (its first chunk, per-document index 0). -/
def chunkB : TextChunk DocMeta := ⟨"beta".toList, 0, ⟨some "B", some 1, none⟩⟩

/-- A sample embedding vector. -/
def emb0 : List Rat := [1, 0]

/-- A sample loaded document section. -/
def docSample : Document := ⟨"hello world".toList, ⟨some "a.pdf", some 1, none⟩⟩

/-- A sample loader over file handles `Nat`: file 0 fails to load, any other
file yields `docSample`. -/
def loaderSample (f : Nat) : Except String (List Document) :=
  if f = 0 then Except.error ("boom") else Except.ok [docSample]

/-- A raw hit with every field absent. -/
def rawHitEmpty : RawHit := ⟨none, none, none⟩

/-- A raw hit with a score and full metadata. -/
def rawHitFull : RawHit :=
  ⟨some "id1", some 42, some ⟨some "body", some "a.pdf", some 2, none, some 5⟩⟩

/-- A chunk with both a page number and a paragraph index set. -/
def citeBoth : RetrievedChunk := ⟨"", 0, "", some "doc.pdf", some 3, some 7, some 4⟩

/-- A chunk with neither a page number nor a paragraph index. -/
def citeNeither : RetrievedChunk := ⟨"", 0, "", some "doc.pdf", none, none, some 4⟩

/-- A retrieval result with zero chunks. -/
def retrievalEmpty : RetrievalResult := ⟨[], 12, "q"⟩

/-- The fourth chunk emitted on the example text with window 15, overlap 5. -/
def exampleChunk3 : TextChunk Unit := ⟨pyStrip (pySlice exampleText 30 45), 3, ()⟩

end EndeeRag

namespace EndeeRag

theorem le_ceilDiv_mul (n s : Nat) (hs : 0 < s) : n ≤ ceilDiv n s * s := by
  cases n with
  | zero => exact Nat.zero_le _
  | succ m =>
      have h1 : ceilDiv (m + 1) s = m / s + 1 := by
        unfold ceilDiv
        have : m + 1 + s - 1 = m + s := by omega
        rw [this, Nat.add_div_right m hs]
      rw [h1, Nat.succ_mul]
      have h2 := Nat.div_add_mod m s
      have h3 : m % s < s := Nat.mod_lt m hs
      have h4 : m / s * s = s * (m / s) := Nat.mul_comm _ _
      omega

theorem chunkLoop_isSome (text : PyStr) (cs co : Nat) (md : α) (h : co < cs) :
    ∀ fuel start idx, text.length - start ≤ fuel * (cs - co) →
      (chunkLoop text cs co md fuel start idx).isSome := by
  intro fuel
  induction fuel with
  | zero =>
      intro start idx hb
      simp only [Nat.zero_mul, Nat.le_zero] at hb
      unfold chunkLoop
      rw [if_neg (by omega)]
      simp
  | succ fuel ih =>
      intro start idx hb
      unfold chunkLoop
      by_cases hlt : start < text.length
      · rw [if_pos hlt]
        simp only
        have harg : text.length - (start + cs - co) ≤ fuel * (cs - co) := by
          rw [Nat.succ_mul] at hb
          omega
        by_cases hempty : (pyStrip (pySlice text start (start + cs))).isEmpty
        · rw [if_pos hempty]
          by_cases hbrk : text.length ≤ start + cs - co
          · rw [if_pos hbrk]; simp
          · rw [if_neg hbrk]; exact ih _ idx harg
        · rw [if_neg hempty]
          by_cases hbrk : text.length ≤ start + cs - co
          · rw [if_pos hbrk]; simp
          · rw [if_neg hbrk]
            simpa using ih _ (idx + 1) harg
      · rw [if_neg hlt]; simp

theorem chunk_text_isSome (text : PyStr) (cs co : Nat) (md : α) (h : co < cs) :
    (chunk_text text cs co md).isSome := by
  unfold chunk_text
  by_cases hg : text.isEmpty || (pyStrip text).isEmpty
  · rw [if_pos hg]; simp
  · rw [if_neg hg]
    apply chunkLoop_isSome text cs co md h
    have h1 : 1 ≤ cs - co := by omega
    calc text.length - 0 = text.length * 1 := by omega
      _ ≤ text.length * (cs - co) := Nat.mul_le_mul_left _ h1

theorem chunkLoop_indices (text : PyStr) (cs co : Nat) (md : α) :
    ∀ fuel start idx l, chunkLoop text cs co md fuel start idx = some l →
      l.map TextChunk.chunk_index = List.range' idx l.length := by
  intro fuel
  induction fuel with
  | zero =>
      intro start idx l hl
      unfold chunkLoop at hl
      by_cases hlt : start < text.length
      · rw [if_pos hlt] at hl; exact absurd hl (by simp)
      · rw [if_neg hlt] at hl
        cases hl
        simp [List.range']
  | succ fuel ih =>
      intro start idx l hl
      unfold chunkLoop at hl
      by_cases hlt : start < text.length
      · rw [if_pos hlt] at hl
        simp only at hl
        by_cases hempty : (pyStrip (pySlice text start (start + cs))).isEmpty
        · rw [if_pos hempty] at hl
          by_cases hbrk : text.length ≤ start + cs - co
          · rw [if_pos hbrk] at hl; cases hl; simp [List.range']
          · rw [if_neg hbrk] at hl; exact ih _ _ _ hl
        · rw [if_neg hempty] at hl
          by_cases hbrk : text.length ≤ start + cs - co
          · rw [if_pos hbrk] at hl; cases hl; simp [List.range']
          · rw [if_neg hbrk] at hl
            cases hres : chunkLoop text cs co md fuel (start + cs - co) (idx + 1) with
            | none => rw [hres] at hl; exact absurd hl (by simp)
            | some tail =>
                rw [hres] at hl
                simp only [Option.map_some'] at hl
                cases hl
                have htail := ih _ _ _ hres
                simp [htail, List.range']
      · rw [if_neg hlt] at hl
        cases hl
        simp [List.range']

theorem chunkLoop_shape (text : PyStr) (cs co : Nat) (md : α) :
    ∀ fuel start idx l, chunkLoop text cs co md fuel start idx = some l →
      ∀ c ∈ l, c.text ≠ [] ∧ c.text.length ≤ cs ∧ c.meta = md ∧
        ∃ s, c.text = pyStrip (pySlice text s (s + cs)) := by
  have hlen : ∀ s, (pyStrip (pySlice text s (s + cs))).length ≤ cs := by
    intro s
    have h1 : (pySlice text s (s + cs)).length ≤ cs := by
      unfold pySlice
      have : s + cs - s = cs := by omega
      rw [this]
      simp
    have h2 : (pyStrip (pySlice text s (s + cs))).length ≤
        (pySlice text s (s + cs)).length := by
      unfold pyStrip
      simp only [List.length_reverse]
      calc ((((pySlice text s (s + cs)).dropWhile Char.isWhitespace).reverse.dropWhile
              Char.isWhitespace)).length
          ≤ (((pySlice text s (s + cs)).dropWhile Char.isWhitespace).reverse).length :=
            (List.dropWhile_sublist _).length_le
        _ = (((pySlice text s (s + cs)).dropWhile Char.isWhitespace)).length :=
            List.length_reverse _
        _ ≤ (pySlice text s (s + cs)).length := (List.dropWhile_sublist _).length_le
    omega
  intro fuel
  induction fuel with
  | zero =>
      intro start idx l hl
      unfold chunkLoop at hl
      by_cases hlt : start < text.length
      · rw [if_pos hlt] at hl; exact absurd hl (by simp)
      · rw [if_neg hlt] at hl; cases hl; simp
  | succ fuel ih =>
      intro start idx l hl
      unfold chunkLoop at hl
      by_cases hlt : start < text.length
      · rw [if_pos hlt] at hl
        simp only at hl
        by_cases hempty : (pyStrip (pySlice text start (start + cs))).isEmpty
        · rw [if_pos hempty] at hl
          by_cases hbrk : text.length ≤ start + cs - co
          · rw [if_pos hbrk] at hl; cases hl; simp
          · rw [if_neg hbrk] at hl; exact ih _ _ _ hl
        · rw [if_neg hempty] at hl
          have hne : pyStrip (pySlice text start (start + cs)) ≠ [] := by
            intro hnil
            rw [hnil] at hempty
            exact hempty rfl
          by_cases hbrk : text.length ≤ start + cs - co
          · rw [if_pos hbrk] at hl
            cases hl
            intro c hc
            simp only [List.mem_singleton] at hc
            subst hc
            exact ⟨hne, hlen start, rfl, start, rfl⟩
          · rw [if_neg hbrk] at hl
            cases hres : chunkLoop text cs co md fuel (start + cs - co) (idx + 1) with
            | none => rw [hres] at hl; exact absurd hl (by simp)
            | some tail =>
                rw [hres] at hl
                simp only [Option.map_some'] at hl
                cases hl
                intro c hc
                rcases List.mem_cons.mp hc with hc | hc
                · subst hc
                  exact ⟨hne, hlen start, rfl, start, rfl⟩
                · exact ih _ _ _ hres c hc
      · rw [if_neg hlt] at hl; cases hl; simp

/-- C2: for every text and every pair `(window_size, overlap)` with
`0 ≤ overlap < window_size`, `chunk_text` terminates, and the windowing loop
already completes within `⌈len(text) / (window_size - overlap)⌉` iterations
of its body (one fuel unit per iteration). -/
theorem chunk_text_terminates_within_ceil (text : PyStr) (ws ov : Nat) (md : α)
    (h : ov < ws) :
    (chunk_text text ws ov md).isSome ∧
    (chunkLoop text ws ov md (ceilDiv text.length (ws - ov)) 0 0).isSome := by
  refine ⟨chunk_text_isSome text ws ov md h, ?_⟩
  apply chunkLoop_isSome text ws ov md h
  have := le_ceilDiv_mul text.length (ws - ov) (by omega)
  rw [Nat.sub_zero]
  exact this

theorem chunk_text_terminates_within_ceil_witness :
    (chunk_text termText 10 9 ()).isSome ∧
    (chunkLoop termText 10 9 () (ceilDiv termText.length (10 - 9)) 0 0).isSome :=
  chunk_text_terminates_within_ceil termText 10 9 () (by decide)

theorem chunk_text_example_eval :
    chunk_text exampleText 15 5 () =
      some [⟨pyStrip (pySlice exampleText 0 15), 0, ()⟩,
            ⟨pyStrip (pySlice exampleText 10 25), 1, ()⟩,
            ⟨pyStrip (pySlice exampleText 20 35), 2, ()⟩,
            ⟨pyStrip (pySlice exampleText 30 45), 3, ()⟩] := by decide

/-- C3 (counterexample): on the 32-character example input with
`window_size = 15` and `overlap = 5`, `chunk_text` does not emit exactly
three chunks. -/
theorem chunk_text_example_not_three_chunks :
    ¬ (chunk_text exampleText 15 5 ()).map List.length = some 3 := by decide

/-- C3 (amended): on the 32-character example input with `window_size = 15`
and `overlap = 5`, `chunk_text` emits exactly four chunks, taken from the
windows `[0,15)`, `[10,25)`, `[20,35)` and `[30,45)` (each clamped to the
text and trimmed of surrounding whitespace), carrying `chunk_index`
0, 1, 2, 3 respectively. -/
theorem chunk_text_example_four_chunks :
    chunk_text exampleText 15 5 () =
      some [⟨pyStrip (pySlice exampleText 0 15), 0, ()⟩,
            ⟨pyStrip (pySlice exampleText 10 25), 1, ()⟩,
            ⟨pyStrip (pySlice exampleText 20 35), 2, ()⟩,
            ⟨pyStrip (pySlice exampleText 30 45), 3, ()⟩] :=
  chunk_text_example_eval

/-- C8: whenever `chunk_text` returns, the emitted `chunk_index` values are
contiguous from 0 with no gaps, in emission order; moreover a trimmed-empty
window is skipped — the loop advances the cursor but recurses with the same
next `chunk_index`, consuming none. -/
theorem chunk_text_indices_contiguous (text : PyStr) (cs co : Nat) (md : α)
    (l : List (TextChunk α)) (_hco : co < cs)
    (hl : chunk_text text cs co md = some l) :
    l.map TextChunk.chunk_index = List.range l.length ∧
    (∀ fuel start idx, start < text.length →
      (pyStrip (pySlice text start (start + cs))).isEmpty →
      chunkLoop text cs co md (fuel + 1) start idx =
        if text.length ≤ start + cs - co then some []
        else chunkLoop text cs co md fuel (start + cs - co) idx) := by
  constructor
  · unfold chunk_text at hl
    by_cases hg : text.isEmpty || (pyStrip text).isEmpty
    · rw [if_pos hg] at hl
      cases hl
      simp
    · rw [if_neg hg] at hl
      rw [List.range_eq_range']
      exact chunkLoop_indices text cs co md _ _ _ _ hl
  · intro fuel start idx hlt hempty
    conv =>
      lhs
      rw [chunkLoop]
    rw [if_pos hlt]
    simp only
    rw [if_pos hempty]

theorem chunk_text_indices_contiguous_witness :
    (chunk_text exampleText 15 5 ()).map (List.map TextChunk.chunk_index) =
      some (List.range 4) := by
  have h4 : ∃ l, chunk_text exampleText 15 5 () = some l ∧ l.length = 4 := by
    refine ⟨_, chunk_text_example_eval, rfl⟩
  rcases h4 with ⟨l, hl, hlen⟩
  have := chunk_text_indices_contiguous exampleText 15 5 () l (by decide) hl
  rw [hl, Option.map_some']
  rw [this.1, hlen]

/-- C10: every chunk emitted by a completed `chunk_text` run has non-empty
text of length at most `chunk_size`, equal to the whitespace-trimmed window
`text[s : s + chunk_size]` it was extracted from. -/
theorem chunk_text_chunk_shape (text : PyStr) (cs co : Nat) (md : α)
    (l : List (TextChunk α)) (_hcs : 0 < cs)
    (hl : chunk_text text cs co md = some l) :
    ∀ c ∈ l, c.text ≠ [] ∧ c.text.length ≤ cs ∧
      ∃ s, c.text = pyStrip (pySlice text s (s + cs)) := by
  intro c hc
  unfold chunk_text at hl
  by_cases hg : text.isEmpty || (pyStrip text).isEmpty
  · rw [if_pos hg] at hl
    cases hl
    exact absurd hc (by simp)
  · rw [if_neg hg] at hl
    have := chunkLoop_shape text cs co md _ _ _ _ hl c hc
    exact ⟨this.1, this.2.1, this.2.2.2⟩

theorem chunk_text_chunk_shape_witness :
    exampleChunk3.text ≠ [] ∧ exampleChunk3.text.length ≤ 15 ∧
      ∃ s, exampleChunk3.text = pyStrip (pySlice exampleText s (s + 15)) :=
  chunk_text_chunk_shape exampleText 15 5 () _ (by decide)
    chunk_text_example_eval exampleChunk3 (by decide)

/-- C1: when the retrieval step yields zero chunks, `generate_answer` returns
the fixed fallback answer, an empty chunk list, the recorded retrieval
latency, zero generation latency and the elapsed total latency, and the
generation provider is invoked zero times. -/
theorem generate_answer_empty_short_circuit
    (retrieval : RetrievalResult) (query : String)
    (gp : String → String) (r2 : Rat → Rat) (gl te : Rat)
    (h : retrieval.chunks = []) :
    generate_answer retrieval query gp r2 gl te =
      ({ answer := fallbackAnswer
         chunks := []
         retrieval_latency_ms := retrieval.retrieval_latency_ms
         generation_latency_ms := 0
         total_latency_ms := te }, 0) ∧
    fallbackAnswer =
      "I couldn\x27t find any relevant information to answer your question." := by
  constructor
  · unfold generate_answer
    rw [h]
    simp
  · rfl

theorem generate_answer_empty_short_circuit_witness :
    generate_answer retrievalEmpty ("q") (fun p => p) (fun x => x) 3 7 =
      ({ answer := fallbackAnswer
         chunks := []
         retrieval_latency_ms := retrievalEmpty.retrieval_latency_ms
         generation_latency_ms := 0
         total_latency_ms := 7 }, 0) ∧
    fallbackAnswer =
      "I couldn\x27t find any relevant information to answer your question." :=
  generate_answer_empty_short_circuit retrievalEmpty ("q") (fun p => p)
    (fun x => x) 3 7 rfl

/-- C4: `format_citation` resolves the location with first-match-wins
precedence — page number present and truthy, else paragraph index present
and truthy, else the chunk index; in particular a chunk with both
`page_number = 3` and `paragraph_index = 7` renders `page 3`, and a chunk
with neither renders `chunk {chunk_index}`. -/
theorem format_citation_precedence :
    (∀ (c : RetrievedChunk) (n : Int), c.page_number = some n → n ≠ 0 →
        format_citation c =
          "[" ++ c.document_name.getD ("Unknown") ++ " – " ++
            ("page " ++ intStr n) ++ "]") ∧
    (∀ (c : RetrievedChunk) (n : Int), truthyInt c.page_number = false →
        c.paragraph_index = some n → n ≠ 0 →
        format_citation c =
          "[" ++ c.document_name.getD ("Unknown") ++ " – " ++
            ("para " ++ intStr n) ++ "]") ∧
    (∀ c : RetrievedChunk, truthyInt c.page_number = false →
        truthyInt c.paragraph_index = false →
        format_citation c =
          "[" ++ c.document_name.getD ("Unknown") ++ " – " ++
            ("chunk " ++ intStr (c.chunk_index.getD 0)) ++ "]") ∧
    format_citation citeBoth = "[doc.pdf – page 3]" ∧
    format_citation citeNeither = "[doc.pdf – chunk 4]" := by
  refine ⟨?_, ?_, ?_, by decide, by decide⟩
  · intro c n hn hne
    have ht : truthyInt c.page_number = true := by
      rw [hn]
      simpa [truthyInt] using hne
    unfold format_citation
    rw [ht, hn]
    simp
  · intro c n hp hn hne
    have ht : truthyInt c.paragraph_index = true := by
      rw [hn]
      simpa [truthyInt] using hne
    unfold format_citation
    rw [hp, ht, hn]
    simp
  · intro c hp hq
    unfold format_citation
    rw [hp, hq]
    simp

theorem format_citation_precedence_witness :
    format_citation citeBoth =
      "[" ++ citeBoth.document_name.getD ("Unknown") ++ " – " ++
        ("page " ++ intStr 3) ++ "]" :=
  format_citation_precedence.1 citeBoth 3 rfl (by decide)

theorem contextBlocks_length (k : Nat) (l : List RetrievedChunk) :
    (contextBlocks k l).length = l.length := by
  induction l generalizing k with
  | nil => rfl
  | cons c rest ih => simp [contextBlocks, ih]

theorem contextBlocks_getElem (k : Nat) (l : List RetrievedChunk) :
    ∀ i : Nat, (contextBlocks k l)[i]? = (l[i]?).map fun c => mkContextBlock (k + i) c := by
  induction l generalizing k with
  | nil => intro i; simp [contextBlocks]
  | cons c rest ih =>
      intro i
      cases i with
      | zero => simp [contextBlocks]
      | succ j =>
          simp only [contextBlocks, List.getElem?_cons_succ]
          rw [ih (k + 1) j]
          have harith : k + 1 + j = k + (j + 1) := by omega
          rw [harith]

/-- C6: normalization emits exactly one chunk per raw hit, in the input
order, and `construct_prompt` builds its context blocks 1-indexed in that
same order, each block being `"[i] {citation}\n{text}\n"`, joined with blank
lines inside the fixed template. -/
theorem normalize_and_prompt_preserve_order
    (hits : List RawHit) (chunks : List RetrievedChunk) (query : String) :
    (normalize hits).length = hits.length ∧
    (∀ i : Nat, (normalize hits)[i]? = (hits[i]?).map normalizeHit) ∧
    (contextBlocks 1 chunks).length = chunks.length ∧
    (∀ i : Nat, (contextBlocks 1 chunks)[i]? =
      (chunks[i]?).map fun c => mkContextBlock (i + 1) c) ∧
    construct_prompt query chunks =
      promptHead ++ String.intercalate ("\n") (contextBlocks 1 chunks) ++
        promptMid ++ query ++ promptTail := by
  refine ⟨?_, ?_, ?_, ?_, ?_⟩
  · simp [normalize]
  · intro i
    simp [normalize]
  · exact contextBlocks_length 1 chunks
  · intro i
    rw [contextBlocks_getElem 1 chunks i]
    have harith : 1 + i = i + 1 := by omega
    rw [harith]
  · rfl

/-- C7: a raw hit with missing metadata fields is normalized with the fields
defaulted to the empty string / zero / null, the hit score becomes the
similarity unconditionally, and prompt construction consumes every
normalized hit (one block per hit) — a malformed record never aborts the
batch. -/
theorem normalize_defaults_never_abort :
    (∀ hit : RawHit, hit.metadata = none →
        normalizeHit hit =
          { id := hit.id.getD ("")
            similarity := hit.score.getD 0
            text := ""
            document_name := some ("")
            page_number := none
            paragraph_index := none
            chunk_index := some 0 }) ∧
    (∀ (hit : RawHit) (s : Rat), hit.score = some s →
        (normalizeHit hit).similarity = s) ∧
    (∀ (hit : RawHit) (m : RawMeta), hit.metadata = some m →
        normalizeHit hit =
          { id := hit.id.getD ("")
            similarity := hit.score.getD 0
            text := m.text.getD ("")
            document_name := some (m.document_name.getD (""))
            page_number := m.page_number
            paragraph_index := m.paragraph_index
            chunk_index := some (m.chunk_index.getD 0) }) ∧
    (∀ hits : List RawHit, (contextBlocks 1 (normalize hits)).length = hits.length) := by
  refine ⟨?_, ?_, ?_, ?_⟩
  · intro hit h
    unfold normalizeHit
    rw [h]
    rfl
  · intro hit s h
    unfold normalizeHit
    simp [h]
  · intro hit m h
    unfold normalizeHit
    rw [h]
    rfl
  · intro hits
    rw [contextBlocks_length]
    simp [normalize]

theorem normalize_defaults_never_abort_witness :
    normalizeHit rawHitEmpty =
      { id := rawHitEmpty.id.getD ("")
        similarity := rawHitEmpty.score.getD 0
        text := ""
        document_name := some ("")
        page_number := none
        paragraph_index := none
        chunk_index := some 0 } ∧
    (normalizeHit rawHitFull).similarity = 42 :=
  ⟨normalize_defaults_never_abort.1 rawHitEmpty rfl,
   normalize_defaults_never_abort.2.1 rawHitFull 42 rfl⟩

theorem natDecAux_irrel :
    ∀ n f1 f2, n < f1 → n < f2 → natDecAux f1 n = natDecAux f2 n := by
  intro n
  induction n using Nat.strong_induction_on with
  | _ n ih =>
      intro f1 f2 h1 h2
      cases f1 with
      | zero => omega
      | succ f1 =>
          cases f2 with
          | zero => omega
          | succ f2 =>
              simp only [natDecAux]
              by_cases hn : n < 10
              · rw [if_pos hn, if_pos hn]
              · rw [if_neg hn, if_neg hn]
                have hd : n / 10 < n := Nat.div_lt_self (by omega) (by omega)
                rw [ih (n / 10) hd f1 f2 (by omega) (by omega)]

theorem natDec_unfold (n : Nat) :
    natDec n =
      if n < 10 then [digitChar n] else natDec (n / 10) ++ [digitChar (n % 10)] := by
  unfold natDec
  simp only [natDecAux]
  by_cases hn : n < 10
  · rw [if_pos hn, if_pos hn]
  · rw [if_neg hn, if_neg hn]
    have hd : n / 10 < n := Nat.div_lt_self (by omega) (by omega)
    rw [natDecAux_irrel (n / 10) n (n / 10 + 1) (by omega) (by omega)]
    rfl

theorem digitChar_ne_underscore : ∀ d < 10, digitChar d ≠ '_' := by decide

theorem digitChar_inj : ∀ d1 < 10, ∀ d2 < 10, digitChar d1 = digitChar d2 → d1 = d2 := by
  decide

theorem natDec_ne_nil (n : Nat) : natDec n ≠ [] := by
  rw [natDec_unfold]
  by_cases hn : n < 10
  · rw [if_pos hn]; simp
  · rw [if_neg hn]; simp

theorem natDec_no_underscore : ∀ n, ∀ c ∈ natDec n, c ≠ '_' := by
  intro n
  induction n using Nat.strong_induction_on with
  | _ n ih =>
      rw [natDec_unfold]
      by_cases hn : n < 10
      · rw [if_pos hn]
        intro c hc
        simp only [List.mem_singleton] at hc
        subst hc
        exact digitChar_ne_underscore n hn
      · rw [if_neg hn]
        intro c hc
        rcases List.mem_append.mp hc with hc | hc
        · exact ih (n / 10) (Nat.div_lt_self (by omega) (by omega)) c hc
        · simp only [List.mem_singleton] at hc
          subst hc
          exact digitChar_ne_underscore (n % 10) (Nat.mod_lt n (by omega))

theorem natDec_inj : ∀ m n, natDec m = natDec n → m = n := by
  intro m
  induction m using Nat.strong_induction_on with
  | _ m ih =>
      intro n h
      rw [natDec_unfold m] at h
      rw [natDec_unfold n] at h
      by_cases hm : m < 10 <;> by_cases hn : n < 10
      · rw [if_pos hm, if_pos hn] at h
        simp only [List.cons.injEq] at h
        exact digitChar_inj m hm n hn h.1
      · rw [if_pos hm, if_neg hn] at h
        exfalso
        have hlen := congrArg List.length h
        cases hnil : natDec (n / 10) with
        | nil => exact natDec_ne_nil (n / 10) hnil
        | cons a l =>
            rw [hnil] at hlen
            simp at hlen
      · rw [if_neg hm, if_pos hn] at h
        exfalso
        have hlen := congrArg List.length h
        cases hnil : natDec (m / 10) with
        | nil => exact natDec_ne_nil (m / 10) hnil
        | cons a l =>
            rw [hnil] at hlen
            simp at hlen
      · rw [if_neg hm, if_neg hn] at h
        have hlen : [digitChar (m % 10)].length = [digitChar (n % 10)].length := rfl
        obtain ⟨h1, h2⟩ := List.append_inj' h hlen
        have hdiv : m / 10 = n / 10 :=
          ih (m / 10) (Nat.div_lt_self (by omega) (by omega)) (n / 10) h1
        simp only [List.cons.injEq] at h2
        have hmod : m % 10 = n % 10 :=
          digitChar_inj (m % 10) (Nat.mod_lt m (by omega)) (n % 10)
            (Nat.mod_lt n (by omega)) h2.1
        omega

theorem takeWhile_not_underscore_append (l1 l2 : List Char)
    (h : ∀ c ∈ l1, c ≠ '_') :
    (l1 ++ '_' :: l2).takeWhile (fun c => c != '_') = l1 := by
  induction l1 with
  | nil => simp [List.takeWhile]
  | cons a l ih =>
      have ha : a ≠ '_' := h a (List.mem_cons_self a l)
      have hrest : ∀ c ∈ l, c ≠ '_' := fun c hc => h c (List.mem_cons_of_mem a hc)
      simp only [List.cons_append, List.takeWhile_cons]
      simp [ha, ih hrest]

theorem chunk_id_inj_idx (c c' : TextChunk DocMeta) (i j : Nat)
    (h : chunk_id c i = chunk_id c' j) : i = j := by
  unfold chunk_id at h
  have hdata := congrArg String.data h
  simp only [String.data_append] at hdata
  have h2 : (natDec i).reverse ++ '_' :: (c.meta.document_name.getD ("unknown")).data.reverse =
      (natDec j).reverse ++ '_' :: (c'.meta.document_name.getD ("unknown")).data.reverse := by
    have := congrArg List.reverse hdata
    simpa [List.reverse_append, natStr, natDec] using this
  have h3 := congrArg (List.takeWhile (fun ch => ch != '_')) h2
  rw [takeWhile_not_underscore_append _ _
        (fun ch hc => natDec_no_underscore i ch (List.mem_reverse.mp hc)),
      takeWhile_not_underscore_append _ _
        (fun ch hc => natDec_no_underscore j ch (List.mem_reverse.mp hc))] at h3
  exact natDec_inj i j (by simpa using congrArg List.reverse h3)

theorem prepare_vectors_aux_getElem (k : Nat)
    (l : List (TextChunk DocMeta × List Rat)) :
    ∀ i : Nat, (prepare_vectors_aux k l)[i]? =
      (l[i]?).map fun p => mkVectorRecord p.1 p.2 (k + i) := by
  induction l generalizing k with
  | nil => intro i; simp [prepare_vectors_aux]
  | cons p rest ih =>
      intro i
      cases p with
      | mk c e =>
          cases i with
          | zero => simp [prepare_vectors_aux]
          | succ j =>
              simp only [prepare_vectors_aux, List.getElem?_cons_succ]
              rw [ih (k + 1) j]
              have harith : k + 1 + j = k + (j + 1) := by omega
              rw [harith]

/-- C5 (counterexample): the vector id is not a function of the document name
and a per-document emission index.  `chunkB` is the first chunk of document
`B` (per-document emission index 0) in both batches below, yet ingesting it
alone yields id `B_0` while ingesting it after a chunk of document `A`
yields id `B_1`. -/
theorem vector_ids_not_per_document :
    (prepare_vectors [chunkB] [emb0]).map VectorRecord.id = [chunk_id chunkB 0] ∧
    (prepare_vectors [chunkA, chunkB] [emb0, emb0]).map VectorRecord.id =
      [chunk_id chunkA 0, chunk_id chunkB 1] ∧
    chunk_id chunkB 0 = "B_0" ∧
    chunk_id chunkB 1 = "B_1" ∧
    chunk_id chunkB 1 ≠ chunk_id chunkB 0 := by decide

/-- C5 (amended): the vector id is derived deterministically from the chunk
document name and the chunk's global emission index within the whole batch
(`f"{document_name}_{idx}"` over `enumerate(zip(chunks, embeddings))`): the
id at batch position `i` is `chunk_id c i`, it depends only on the document
name and `i`, and ids at distinct batch positions are always distinct, so
re-ingestion of the same file ordering reproduces the same ids. -/
theorem vector_ids_global_index (chunks : List (TextChunk DocMeta))
    (embs : List (List Rat)) :
    (∀ (i : Nat) (c : TextChunk DocMeta) (e : List Rat),
        (chunks.zip embs)[i]? = some (c, e) →
        ((prepare_vectors chunks embs)[i]?).map VectorRecord.id =
          some (chunk_id c i)) ∧
    (∀ (c c' : TextChunk DocMeta) (i : Nat),
        c.meta.document_name = c'.meta.document_name →
        chunk_id c i = chunk_id c' i) ∧
    (∀ (i j : Nat) (ri rj : VectorRecord), i ≠ j →
        (prepare_vectors chunks embs)[i]? = some ri →
        (prepare_vectors chunks embs)[j]? = some rj →
        ri.id ≠ rj.id) := by
  refine ⟨?_, ?_, ?_⟩
  · intro i c e h
    unfold prepare_vectors
    rw [prepare_vectors_aux_getElem 0 _ i, h]
    simp [mkVectorRecord]
  · intro c c' i h
    unfold chunk_id
    rw [h]
  · intro i j ri rj hne hi hj hid
    unfold prepare_vectors at hi hj
    rw [prepare_vectors_aux_getElem 0 _ i] at hi
    rw [prepare_vectors_aux_getElem 0 _ j] at hj
    cases hzi : (chunks.zip embs)[i]? with
    | none => rw [hzi] at hi; exact absurd hi (by simp)
    | some pi =>
        cases hzj : (chunks.zip embs)[j]? with
        | none => rw [hzj] at hj; exact absurd hj (by simp)
        | some pj =>
            rw [hzi] at hi
            rw [hzj] at hj
            simp only [Option.map_some', Option.some.injEq] at hi hj
            have hii : ri.id = chunk_id pi.1 (0 + i) := by rw [← hi]; rfl
            have hjj : rj.id = chunk_id pj.1 (0 + j) := by rw [← hj]; rfl
            rw [hii, hjj] at hid
            have := chunk_id_inj_idx pi.1 pj.1 (0 + i) (0 + j) hid
            omega

theorem vector_ids_global_index_witness :
    ((prepare_vectors [chunkA, chunkB] [emb0, emb0])[1]?).map VectorRecord.id =
      some (chunk_id chunkB 1) :=
  (vector_ids_global_index [chunkA, chunkB] [emb0, emb0]).1 1 chunkB emb0 (by decide)

theorem chunk_documents_isSome (docs : List Document) (cs co : Nat) (h : co < cs) :
    (chunk_documents docs cs co).isSome := by
  induction docs with
  | nil => simp [chunk_documents]
  | cons d rest ih =>
      simp only [chunk_documents]
      have h1 := chunk_text_isSome d.text cs co d.meta h
      cases hc : chunk_text d.text cs co d.meta with
      | none => rw [hc] at h1; exact absurd h1 (by simp)
      | some a =>
          cases hr : chunk_documents rest cs co with
          | none => rw [hr] at ih; exact absurd ih (by simp)
          | some b => simp [hc, hr]

/-- C9: a per-file load failure only skips that file while loading continues;
`ingest_documents` returns the global failure `"No documents were successfully
loaded"` exactly when zero document sections were loaded, and the distinct
global failure `"No chunks were created"` exactly when sections were loaded
but chunking yielded zero chunks — each failure with zero counts — and
succeeds otherwise. -/
theorem ingest_failure_characterization {φ : Type}
    (loader : φ → Except String (List Document)) (files : List φ)
    (cs co uc : Nat) (h : co < cs) :
    (∀ (f : φ) (fs : List φ) (e : String), loader f = Except.error e →
        load_all loader (f :: fs) = load_all loader fs) ∧
    (ingest_documents loader files cs co uc =
        some ⟨false, some noDocsError, 0, 0⟩ ↔ load_all loader files = []) ∧
    (ingest_documents loader files cs co uc =
        some ⟨false, some noChunksError, 0, 0⟩ ↔
      (load_all loader files ≠ [] ∧
        chunk_documents (load_all loader files) cs co = some [])) ∧
    (∀ chunks : List (TextChunk DocMeta), load_all loader files ≠ [] →
        chunk_documents (load_all loader files) cs co = some chunks →
        chunks ≠ [] →
        ingest_documents loader files cs co uc =
          some ⟨true, none, chunks.length, uc⟩) := by
  have hmsg : noDocsError ≠ noChunksError := by decide
  refine ⟨?_, ?_, ?_, ?_⟩
  · intro f fs e he
    simp [load_all, he]
  · by_cases hL : load_all loader files = []
    · simp [ingest_documents, hL]
    · obtain ⟨chunks, hch⟩ :=
        Option.isSome_iff_exists.mp (chunk_documents_isSome _ cs co h)
      constructor
      · intro hr
        exfalso
        unfold ingest_documents at hr
        rw [if_neg (by simpa using hL)] at hr
        rw [hch] at hr
        simp only [Option.map_some'] at hr
        by_cases hc0 : chunks.isEmpty
        · rw [if_pos hc0] at hr
          simp only [Option.some.injEq, IngestResult.mk.injEq, Option.some.injEq] at hr
          exact hmsg hr.2.1.symm
        · rw [if_neg hc0] at hr
          simp at hr
      · intro hr
        exact absurd hr hL
  · by_cases hL : load_all loader files = []
    · constructor
      · intro hr
        exfalso
        unfold ingest_documents at hr
        rw [if_pos (by simpa using hL)] at hr
        simp only [Option.some.injEq, IngestResult.mk.injEq, Option.some.injEq] at hr
        exact hmsg hr.2.1
      · intro hr
        exact absurd hL hr.1
    · obtain ⟨chunks, hch⟩ :=
        Option.isSome_iff_exists.mp (chunk_documents_isSome _ cs co h)
      constructor
      · intro hr
        refine ⟨hL, ?_⟩
        unfold ingest_documents at hr
        rw [if_neg (by simpa using hL)] at hr
        rw [hch] at hr
        simp only [Option.map_some'] at hr
        by_cases hc0 : chunks.isEmpty
        · rw [hch]
          have : chunks = [] := by simpa using hc0
          rw [this]
        · rw [if_neg hc0] at hr
          simp at hr
      · intro ⟨hne, hempty⟩
        unfold ingest_documents
        rw [if_neg (by simpa using hL)]
        rw [hempty]
        rfl
  · intro chunks hne hch hc0
    unfold ingest_documents
    rw [if_neg (by simpa using hne)]
    rw [hch]
    simp only [Option.map_some']
    rw [if_neg (by simpa using hc0)]

theorem ingest_failure_characterization_witness :
    load_all loaderSample (0 :: [1]) = load_all loaderSample [1] ∧
    (ingest_documents loaderSample [0, 1] 500 50 3 =
        some ⟨false, some noDocsError, 0, 0⟩ ↔
      load_all loaderSample [0, 1] = []) :=
  ⟨(ingest_failure_characterization loaderSample [0, 1] 500 50 3 (by decide)).1
      0 [1] ("boom") rfl,
   (ingest_failure_characterization loaderSample [0, 1] 500 50 3 (by decide)).2.1⟩

end EndeeRag
